import Mathlib

set_option maxRecDepth 40000
set_option maxHeartbeats 1000000

/-!
Verification of the Magician-Platform branch-structure auditor
(`src/config/settings.py`) against its natural-language specification.

The Python script is embedded shallowly:

* The filesystem is a value of `FS`: a list of existing directory paths and
  a list of `(path, content)` pairs for existing regular files.
  `os.path.exists` is `pathExists` (true for a directory or a file path),
  `os.makedirs(p, exist_ok=True)` is `makedirs` (adds `p` and every ancestor
  directory), and `open(p, "w"); write(c)` is `setFile`.
* Python strings are Lean `String`s; the string methods the script uses
  (`strip`, `split`, `replace`, the `in` substring test) are embedded at the
  character-list level (`charStrip`, `splitChar`, `removeStar`, `hasSubstr`)
  so that both concrete evaluation and general lemmas are available.
* The manifest dictionary `REQUIRED_STRUCTURE` is an insertion-ordered
  association list, built exactly as the source builds it: a base literal
  plus a loop over `MAGICIANS` appending derived file names.
* `check_branch`'s pure audit loop is `check_branch` below; the `git`
  side effects (branch listing, checkout) are an abstract `World` oracle,
  and the console is a trace of `OutEvent`s.
-/

/-- Embeds Python `str.strip()` on the character list of a string: drop
whitespace characters from the front and from the back. (The inputs in this
development only carry spaces and newlines, which `Char.isWhitespace`
covers.) -/
def charStrip (l : List Char) : List Char :=
  ((l.dropWhile Char.isWhitespace).reverse.dropWhile Char.isWhitespace).reverse

/-- Python `s.strip()` as a `String` operation. -/
def pyStrip (s : String) : String := ⟨charStrip s.data⟩

/-- Embeds Python `s.split(sep)` for a one-character separator: split the
character list at every occurrence of `sep`, keeping empty pieces, never
returning an empty list of pieces. -/
def splitChar (sep : Char) : List Char → List (List Char)
  | [] => [[]]
  | c :: rest =>
    if c = sep then [] :: splitChar sep rest
    else
      match splitChar sep rest with
      | [] => [[c]]
      | g :: gs => (c :: g) :: gs

/-- Inverse of `splitChar`: interleave the separator between the pieces. -/
def joinChar (sep : Char) : List (List Char) → List Char
  | [] => []
  | [x] => x
  | x :: y :: xs => x ++ sep :: joinChar sep (y :: xs)

/-- Embeds the Python substring test `pat in s` over character lists. -/
def hasSubstr (pat : List Char) : List Char → Bool
  | [] => pat.isEmpty
  | c :: rest => pat.isPrefixOf (c :: rest) || hasSubstr pat rest

/-- Embeds Python `b.replace("*", "")`: replacing every (non-overlapping)
occurrence of the one-character pattern `"*"` by the empty string removes
exactly the `'*'` characters of the string. -/
def removeStar (s : String) : String := ⟨s.data.filter (fun c => c != '*')⟩

/-- Embeds `main`'s branch enumeration
`[b.replace("*", "").strip() for b in run("git branch -a").split("\n") if "remotes" not in b]`,
applied to the raw output of `git branch -a` (note `run` itself applies
`.strip()` to the captured output before the split). -/
def branches_of (raw : String) : List String :=
  (((splitChar '\n' (charStrip raw.data)).map (fun l => (⟨l⟩ : String))).filter
      (fun b => !(hasSubstr "remotes".data b.data))).map
    (fun b => pyStrip (removeStar b))

/-- The branch names actually audited: `main`'s loop body runs only under
`if branch:`, which skips empty strings. -/
def audited_branches (raw : String) : List String :=
  (branches_of raw).filter (fun b => b != "")

/-- The working tree of the checked-out branch: which directory paths exist
and which file paths exist (with their text content). -/
structure FS where
  dirs : List String
  files : List (String × String)
deriving DecidableEq

/-- Embeds `os.path.exists(p)`: true when `p` is an existing directory or an
existing file. -/
def pathExists (fs : FS) (p : String) : Bool :=
  decide (p ∈ fs.dirs) || decide (p ∈ fs.files.map Prod.fst)

/-- The `/`-separated prefixes of a path, shortest first; the last entry is
the path itself. `os.makedirs` creates exactly these directories. -/
def ancestors (p : String) : List String :=
  (List.range (splitChar '/' p.data).length).map
    (fun i => ⟨joinChar '/' ((splitChar '/' p.data).take (i + 1))⟩)

/-- Embeds `os.makedirs(p, exist_ok=True)`: the directory and all its
ancestors exist afterwards. -/
def makedirs (fs : FS) (p : String) : FS :=
  { fs with dirs := fs.dirs ++ ancestors p }

/-- Embeds `open(p, "w")` followed by writing `content`: any previous file at
`p` is replaced and `p` now holds `content`. -/
def setFile (fs : FS) (p content : String) : FS :=
  { fs with files := fs.files.filter (fun e => e.1 != p) ++ [(p, content)] }

/-- The text `check_branch` writes into an auto-created file `f`:
`fp.write(f"# Auto-generated placeholder for {f}\n")`. -/
def placeholder (f : String) : String :=
  "# Auto-generated placeholder for " ++ f ++ "\n"

/-- The inner loop of `check_branch`: for each required file name of an
existing folder, in order, record `Missing file: <folder>/<f>` when the path
does not exist and, under `auto_fix`, create it with placeholder content.
(`os.path.join(folder, f)` on these relative arguments is
`folder ++ "/" ++ f`.) -/
def checkFiles (auto_fix : Bool) (folder : String) (files : List String)
    (acc : List String × FS) : List String × FS :=
  files.foldl (fun acc2 f =>
    if pathExists acc2.2 (folder ++ "/" ++ f) then acc2
    else
      (acc2.1 ++ ["Missing file: " ++ (folder ++ "/" ++ f)],
       if auto_fix then setFile acc2.2 (folder ++ "/" ++ f) (placeholder f)
       else acc2.2)) acc

/-- One iteration of `check_branch`'s outer loop, for one manifest entry:
a missing folder is recorded (and, under `auto_fix`, created) and its file
list is skipped (`continue`); an existing folder has its files checked. -/
def checkFolder (auto_fix : Bool) (acc : List String × FS)
    (e : String × List String) : List String × FS :=
  if pathExists acc.2 e.1 then checkFiles auto_fix e.1 e.2 acc
  else
    (acc.1 ++ ["Missing folder: " ++ e.1],
     if auto_fix then makedirs acc.2 e.1 else acc.2)

/-- The pure audit loop of `check_branch(branch)`, after the banner print and
the `git checkout`: fold the manifest in order, starting from an empty
missing list, returning the missing list and the resulting working tree. -/
def check_branch (manifest : List (String × List String)) (auto_fix : Bool)
    (fs : FS) : List String × FS :=
  manifest.foldl (checkFolder auto_fix) ([], fs)

/-- The base literal of `REQUIRED_STRUCTURE` before the `MAGICIANS` loop,
in source (insertion) order. -/
def BASE_STRUCTURE : List (String × List String) :=
  [("orchestration", ["base_magician.py", "router.py"]),
   ("resources/models", []),
   ("resources/services", []),
   ("lifecycle", []),
   ("api", []),
   ("config", ["settings.py"]),
   ("tests", [])]

/-- The variant list of the source: `MAGICIANS = ["job", "business", "developer"]`. -/
def MAGICIANS : List String := ["job", "business", "developer"]

/-- Embeds `REQUIRED_STRUCTURE[key].append(file)`: the (unique) entry with
this key gets `file` appended to its list; other entries are untouched. -/
def addToKey (man : List (String × List String)) (key file : String) :
    List (String × List String) :=
  man.map (fun e => if e.1 = key then (e.1, e.2 ++ [file]) else e)

/-- One iteration of the source's `for m in MAGICIANS` loop: the six
`append` statements, in source order. -/
def addMagician (man : List (String × List String)) (m : String) :
    List (String × List String) :=
  addToKey (addToKey (addToKey (addToKey (addToKey (addToKey man
    "orchestration" (m ++ "_magician.py"))
    "lifecycle" ("vacuum_" ++ m ++ "_data.py"))
    "lifecycle" ("retrain_" ++ m ++ ".py"))
    "api" ("routes_" ++ m ++ ".py"))
    "tests" ("test_" ++ m ++ "_api.py"))
    "tests" ("test_" ++ m ++ "_magician.py")

/-- Manifest construction as a function of the variant list: the base
structure with each variant's derived file names appended in order. -/
def build_manifest (variants : List String) : List (String × List String) :=
  variants.foldl addMagician BASE_STRUCTURE

/-- The manifest the script audits against, as built at import time. -/
def REQUIRED_STRUCTURE : List (String × List String) :=
  build_manifest MAGICIANS

/-- The source's compiled-in configuration switch (`AUTO_FIX = False`). -/
def AUTO_FIX : Bool := false

/-- Lookup of a folder's required-file list in a manifest (first entry with
the key; `[]` when the key is absent). -/
def manifestFiles (man : List (String × List String)) (key : String) :
    List String :=
  ((man.find? (fun e => e.1 == key)).map Prod.snd).getD []

/-- A working tree containing exactly the folders and files of a manifest
(file contents are irrelevant to the auditor, which only tests existence). -/
def fsOfManifest (man : List (String × List String)) : FS :=
  { dirs := man.map Prod.fst,
    files := man.flatMap (fun e => e.2.map (fun f => (e.1 ++ "/" ++ f, ""))) }

/-- Two successive auto-fix audits of the same branch. Between the runs the
script re-runs `git checkout <branch>` for the branch that is already
checked out; this leaves the working tree unchanged (the placeholder files
and folders created by the first run are untracked and survive). -/
def audit_twice (man : List (String × List String)) (fs : FS) :
    List String × FS :=
  check_branch man true (check_branch man true fs).2

/-- Embeds `subprocess.CalledProcessError` as raised by
`subprocess.check_output(cmd, shell=True)` on a non-zero exit status: the
failing command and its exit code. -/
structure VcsError where
  cmd : String
  exitCode : Nat
deriving DecidableEq

/-- The outcome of each `git` invocation the script makes: the raw output of
`git branch -a`, and the effect of `git checkout <branch>` on the working
tree. An `Except.error` is the non-zero-exit case, in which
`subprocess.check_output` raises. -/
structure World where
  branch_output : Except VcsError String
  checkout : String → FS → Except VcsError FS

/-- One console print event of the script: the per-branch banner
`\n=== Checking branch: <b> ===`, the final `\n\n=== FINAL REPORT ===`
header, or the `json.dumps(report, indent=2)` dump. -/
inductive OutEvent where
  | checkingBanner (branch : String)
  | finalReportHeader
  | reportJson (report : List (String × List String))
deriving DecidableEq

/-- Embeds `report[branch] = missing` on the insertion-ordered dict: an
existing key is updated in place, a new key is appended. -/
def reportSet (report : List (String × List String)) (key : String)
    (val : List String) : List (String × List String) :=
  if report.any (fun e => e.1 == key) then
    report.map (fun e => if e.1 == key then (key, val) else e)
  else report ++ [(key, val)]

/-- Mutable state of the running script: the working tree and the global
`REQUIRED_STRUCTURE` dictionary (a module-level object that the audit loop
reads but never assigns to). -/
structure ProgState where
  fs : FS
  manifest : List (String × List String)
deriving DecidableEq

/-- `check_branch` as a transformer of the full program state: the source
body reads the global manifest and mutates only the filesystem. -/
def check_branch_prog (auto_fix : Bool) (s : ProgState) :
    List String × ProgState :=
  ((check_branch s.manifest auto_fix s.fs).1,
   { s with fs := (check_branch s.manifest auto_fix s.fs).2 })

/-- The branch loop of `main`: for each non-empty branch name, print the
banner, run `git checkout` (whose failure raises and aborts the whole run),
audit the checked-out tree, and store the missing list under the branch name
in the report. Returns the console trace so far together with either the
error or the final report and program state. -/
def auditAll (w : World) (auto_fix : Bool) :
    ProgState → List String → List OutEvent → List (String × List String) →
    List OutEvent × Except VcsError (List (String × List String) × ProgState)
  | s, [], printed, report => (printed, Except.ok (report, s))
  | s, b :: rest, printed, report =>
    if b = "" then auditAll w auto_fix s rest printed report
    else
      match w.checkout b s.fs with
      | Except.error e => (printed ++ [OutEvent.checkingBanner b], Except.error e)
      | Except.ok fs1 =>
        let res := check_branch_prog auto_fix { s with fs := fs1 }
        auditAll w auto_fix res.2 rest (printed ++ [OutEvent.checkingBanner b])
          (reportSet report b res.1)

/-- Embeds `main()`: list the branches (a failure here raises before
anything is printed), audit each non-empty branch name in order, and on
success print the final-report header and the JSON dump of the report. -/
def mainRun (w : World) (auto_fix : Bool) (s : ProgState) :
    List OutEvent × Except VcsError (List (String × List String)) :=
  match w.branch_output with
  | Except.error e => ([], Except.error e)
  | Except.ok raw =>
    match auditAll w auto_fix s (branches_of raw) [] [] with
    | (printed, Except.error e) => (printed, Except.error e)
    | (printed, Except.ok (report, _)) =>
      (printed ++ [OutEvent.finalReportHeader, OutEvent.reportJson report],
       Except.ok report)

/-- The working tree contains (at least) every folder of the manifest and
every required file of every folder. -/
def coveredBy (man : List (String × List String)) (fs : FS) : Prop :=
  ∀ e ∈ man, pathExists fs e.1 = true ∧
    ∀ f ∈ e.2, pathExists fs (e.1 ++ "/" ++ f) = true

theorem pathExists_iff (fs : FS) (p : String) :
    pathExists fs p = true ↔ p ∈ fs.dirs ∨ p ∈ fs.files.map Prod.fst := by
  simp [pathExists]

theorem pathExists_false_iff (fs : FS) (p : String) :
    pathExists fs p = false ↔ p ∉ fs.dirs ∧ p ∉ fs.files.map Prod.fst := by
  simp [pathExists, not_or]

theorem checkFiles_nil (af : Bool) (folder : String) (acc : List String × FS) :
    checkFiles af folder [] acc = acc := rfl

theorem checkFiles_cons (af : Bool) (folder f : String) (rest : List String)
    (ms : List String) (fs : FS) :
    checkFiles af folder (f :: rest) (ms, fs) =
      if pathExists fs (folder ++ "/" ++ f) then checkFiles af folder rest (ms, fs)
      else
        checkFiles af folder rest
          (ms ++ ["Missing file: " ++ (folder ++ "/" ++ f)],
           if af then setFile fs (folder ++ "/" ++ f) (placeholder f) else fs) := by
  simp only [checkFiles, List.foldl_cons]
  by_cases h : pathExists fs (folder ++ "/" ++ f) = true <;> simp [h]

theorem checkFolder_eq (af : Bool) (ms : List String) (fs : FS)
    (e : String × List String) :
    checkFolder af (ms, fs) e =
      if pathExists fs e.1 then checkFiles af e.1 e.2 (ms, fs)
      else (ms ++ ["Missing folder: " ++ e.1],
            if af then makedirs fs e.1 else fs) := rfl

theorem check_branch_nil (af : Bool) (fs : FS) :
    check_branch [] af fs = ([], fs) := rfl

theorem checkFiles_append (af : Bool) (folder : String) :
    ∀ (files ms : List String) (fs : FS),
      checkFiles af folder files (ms, fs)
        = (ms ++ (checkFiles af folder files ([], fs)).1,
           (checkFiles af folder files ([], fs)).2) := by
  intro files
  induction files with
  | nil => intro ms fs; simp [checkFiles]
  | cons f rest ih =>
    intro ms fs
    rw [checkFiles_cons, checkFiles_cons]
    by_cases h : pathExists fs (folder ++ "/" ++ f) = true
    · simp only [if_pos h]
      exact ih ms fs
    · simp only [if_neg h]
      rw [ih (ms ++ _), ih ([] ++ _)]
      simp

theorem checkFolder_append (af : Bool) (e : String × List String)
    (ms : List String) (fs : FS) :
    checkFolder af (ms, fs) e
      = (ms ++ (checkFolder af ([], fs) e).1, (checkFolder af ([], fs) e).2) := by
  rw [checkFolder_eq, checkFolder_eq]
  by_cases h : pathExists fs e.1 = true
  · simp only [if_pos h]
    exact checkFiles_append af e.1 e.2 ms fs
  · simp only [if_neg h]
    simp

theorem foldl_check_append (af : Bool) :
    ∀ (man : List (String × List String)) (ms : List String) (fs : FS),
      man.foldl (checkFolder af) (ms, fs)
        = (ms ++ (check_branch man af fs).1, (check_branch man af fs).2) := by
  intro man
  induction man with
  | nil => intro ms fs; simp [check_branch]
  | cons e rest ih =>
    intro ms fs
    show rest.foldl (checkFolder af) (checkFolder af (ms, fs) e) = _
    rw [checkFolder_append]
    rcases h : checkFolder af ([], fs) e with ⟨m1, fs1⟩
    rw [ih (ms ++ m1) fs1]
    have hrhs : check_branch (e :: rest) af fs
        = (m1 ++ (check_branch rest af fs1).1, (check_branch rest af fs1).2) := by
      show rest.foldl (checkFolder af) (checkFolder af ([], fs) e) = _
      rw [h, ih m1 fs1]
    rw [hrhs]
    simp [List.append_assoc]

theorem check_branch_cons (af : Bool) (e : String × List String)
    (man : List (String × List String)) (fs : FS) :
    check_branch (e :: man) af fs
      = ((checkFolder af ([], fs) e).1
           ++ (check_branch man af (checkFolder af ([], fs) e).2).1,
         (check_branch man af (checkFolder af ([], fs) e).2).2) := by
  show man.foldl (checkFolder af) (checkFolder af ([], fs) e) = _
  rcases h : checkFolder af ([], fs) e with ⟨m1, fs1⟩
  rw [foldl_check_append]

theorem mem_checkFiles_of_mem (af : Bool) (folder : String) (files ms : List String)
    (fs : FS) (x : String) (hx : x ∈ ms) :
    x ∈ (checkFiles af folder files (ms, fs)).1 := by
  rw [checkFiles_append]
  exact List.mem_append_left _ hx

theorem mem_foldl_check_of_mem (af : Bool) (man : List (String × List String))
    (ms : List String) (fs : FS) (x : String) (hx : x ∈ ms) :
    x ∈ (man.foldl (checkFolder af) (ms, fs)).1 := by
  rw [foldl_check_append]
  exact List.mem_append_left _ hx

theorem checkFiles_shape (af : Bool) (folder : String) :
    ∀ (files ms : List String) (fs : FS) (x : String),
      x ∈ (checkFiles af folder files (ms, fs)).1 →
      x ∈ ms ∨ ∃ f ∈ files, x = "Missing file: " ++ (folder ++ "/" ++ f) := by
  intro files
  induction files with
  | nil => intro ms fs x hx; exact Or.inl hx
  | cons f rest ih =>
    intro ms fs x hx
    rw [checkFiles_cons] at hx
    by_cases h : pathExists fs (folder ++ "/" ++ f) = true
    · rw [if_pos h] at hx
      rcases ih ms fs x hx with h1 | ⟨g, hg, hxg⟩
      · exact Or.inl h1
      · exact Or.inr ⟨g, List.mem_cons_of_mem f hg, hxg⟩
    · rw [if_neg h] at hx
      rcases ih _ _ x hx with h1 | ⟨g, hg, hxg⟩
      · rcases List.mem_append.mp h1 with h2 | h2
        · exact Or.inl h2
        · exact Or.inr ⟨f, List.mem_cons_self f rest, List.mem_singleton.mp h2⟩
      · exact Or.inr ⟨g, List.mem_cons_of_mem f hg, hxg⟩

theorem checkFolder_shape (af : Bool) (e : String × List String)
    (ms : List String) (fs : FS) (x : String)
    (hx : x ∈ (checkFolder af (ms, fs) e).1) :
    x ∈ ms ∨ x = "Missing folder: " ++ e.1
      ∨ ∃ f ∈ e.2, x = "Missing file: " ++ (e.1 ++ "/" ++ f) := by
  rw [checkFolder_eq] at hx
  by_cases h : pathExists fs e.1 = true
  · rw [if_pos h] at hx
    rcases checkFiles_shape af e.1 e.2 ms fs x hx with h1 | h1
    · exact Or.inl h1
    · exact Or.inr (Or.inr h1)
  · rw [if_neg h] at hx
    rcases List.mem_append.mp hx with h1 | h1
    · exact Or.inl h1
    · exact Or.inr (Or.inl (List.mem_singleton.mp h1))

theorem check_branch_shape (af : Bool) :
    ∀ (man : List (String × List String)) (fs : FS) (x : String),
      x ∈ (check_branch man af fs).1 →
      ∃ e ∈ man, x = "Missing folder: " ++ e.1
        ∨ ∃ f ∈ e.2, x = "Missing file: " ++ (e.1 ++ "/" ++ f) := by
  intro man
  induction man with
  | nil => intro fs x hx; simp [check_branch] at hx
  | cons e rest ih =>
    intro fs x hx
    rw [check_branch_cons] at hx
    rcases List.mem_append.mp hx with h1 | h1
    · rcases checkFolder_shape af e [] fs x h1 with h2 | h2 | h2
      · simp at h2
      · exact ⟨e, List.mem_cons_self e rest, Or.inl h2⟩
      · exact ⟨e, List.mem_cons_self e rest, Or.inr h2⟩
    · rcases ih _ x h1 with ⟨e', he', hx'⟩
      exact ⟨e', List.mem_cons_of_mem e he', hx'⟩

theorem setFile_dirs (fs : FS) (p c : String) : (setFile fs p c).dirs = fs.dirs := rfl

theorem makedirs_dirs (fs : FS) (p : String) :
    (makedirs fs p).dirs = fs.dirs ++ ancestors p := rfl

theorem checkFiles_fs_dirs (af : Bool) (folder : String) :
    ∀ (files ms : List String) (fs : FS),
      ((checkFiles af folder files (ms, fs)).2).dirs = fs.dirs := by
  intro files
  induction files with
  | nil => intro ms fs; rfl
  | cons f rest ih =>
    intro ms fs
    rw [checkFiles_cons]
    by_cases h : pathExists fs (folder ++ "/" ++ f) = true
    · rw [if_pos h]; exact ih ms fs
    · rw [if_neg h]
      by_cases haf : af = true
      · rw [if_pos haf, ih, setFile_dirs]
      · rw [if_neg haf, ih]

theorem pathExists_setFile_mono (fs : FS) (p q c : String)
    (h : pathExists fs p = true) : pathExists (setFile fs q c) p = true := by
  rw [pathExists_iff] at h ⊢
  rcases h with h | h
  · exact Or.inl h
  · by_cases hpq : p = q
    · subst hpq
      refine Or.inr ?_
      simp [setFile]
    · refine Or.inr ?_
      simp only [setFile, List.map_append, List.mem_append]
      left
      rcases List.mem_map.mp h with ⟨e, he, hep⟩
      refine List.mem_map.mpr ⟨e, List.mem_filter.mpr ⟨he, ?_⟩, hep⟩
      simp [hep, hpq]

theorem pathExists_makedirs_mono (fs : FS) (p q : String)
    (h : pathExists fs p = true) : pathExists (makedirs fs q) p = true := by
  rw [pathExists_iff] at h ⊢
  rcases h with h | h
  · exact Or.inl (by simp [makedirs, h])
  · exact Or.inr h

theorem pathExists_setFile_frame (fs : FS) (p q c : String) (hpq : p ≠ q) :
    pathExists (setFile fs q c) p = pathExists fs p := by
  simp only [pathExists, setFile, List.map_append, List.mem_append]
  have : (p ∈ (fs.files.filter (fun e => e.1 != q)).map Prod.fst ∨ p ∈ [(q, c)].map Prod.fst)
      ↔ p ∈ fs.files.map Prod.fst := by
    constructor
    · rintro (h | h)
      · rcases List.mem_map.mp h with ⟨e, he, hep⟩
        exact List.mem_map.mpr ⟨e, (List.mem_filter.mp he).1, hep⟩
      · simp at h
        exact absurd h hpq
    · intro h
      rcases List.mem_map.mp h with ⟨e, he, hep⟩
      exact Or.inl (List.mem_map.mpr ⟨e, List.mem_filter.mpr ⟨he, by simp [hep, hpq]⟩, hep⟩)
  congr 1
  exact decide_eq_decide.mpr this

theorem pathExists_makedirs_frame (fs : FS) (p q : String)
    (hp : p ∉ ancestors q) : pathExists (makedirs fs q) p = pathExists fs p := by
  simp only [pathExists, makedirs, List.mem_append]
  have : (p ∈ fs.dirs ∨ p ∈ ancestors q) ↔ p ∈ fs.dirs := by
    constructor
    · rintro (h | h)
      · exact h
      · exact absurd h hp
    · exact Or.inl
  congr 1
  exact decide_eq_decide.mpr this

theorem pathExists_checkFiles_mono (af : Bool) (folder : String) :
    ∀ (files ms : List String) (fs : FS) (p : String),
      pathExists fs p = true →
      pathExists ((checkFiles af folder files (ms, fs)).2) p = true := by
  intro files
  induction files with
  | nil => intro ms fs p h; exact h
  | cons f rest ih =>
    intro ms fs p h
    rw [checkFiles_cons]
    by_cases hf : pathExists fs (folder ++ "/" ++ f) = true
    · rw [if_pos hf]; exact ih ms fs p h
    · rw [if_neg hf]
      by_cases haf : af = true
      · rw [if_pos haf]
        exact ih _ _ p (pathExists_setFile_mono fs p _ _ h)
      · rw [if_neg haf]
        exact ih _ fs p h

theorem pathExists_checkFolder_mono (af : Bool) (e : String × List String)
    (ms : List String) (fs : FS) (p : String) (h : pathExists fs p = true) :
    pathExists ((checkFolder af (ms, fs) e).2) p = true := by
  rw [checkFolder_eq]
  by_cases he : pathExists fs e.1 = true
  · rw [if_pos he]; exact pathExists_checkFiles_mono af e.1 e.2 ms fs p h
  · rw [if_neg he]
    by_cases haf : af = true
    · simp only
      rw [if_pos haf]
      exact pathExists_makedirs_mono fs p e.1 h
    · simp only
      rw [if_neg haf]
      exact h

theorem pathExists_check_branch_mono (af : Bool) :
    ∀ (man : List (String × List String)) (fs : FS) (p : String),
      pathExists fs p = true →
      pathExists ((check_branch man af fs).2) p = true := by
  intro man
  induction man with
  | nil => intro fs p h; exact h
  | cons e rest ih =>
    intro fs p h
    rw [check_branch_cons]
    exact ih _ p (pathExists_checkFolder_mono af e [] fs p h)

theorem pathExists_checkFiles_frame (af : Bool) (folder : String) :
    ∀ (files ms : List String) (fs : FS) (p : String),
      (∀ f ∈ files, p ≠ folder ++ "/" ++ f) →
      pathExists ((checkFiles af folder files (ms, fs)).2) p = pathExists fs p := by
  intro files
  induction files with
  | nil => intro ms fs p _; rfl
  | cons f rest ih =>
    intro ms fs p hp
    have hpf : p ≠ folder ++ "/" ++ f := hp f (List.mem_cons_self f rest)
    have hprest : ∀ g ∈ rest, p ≠ folder ++ "/" ++ g :=
      fun g hg => hp g (List.mem_cons_of_mem f hg)
    rw [checkFiles_cons]
    by_cases hf : pathExists fs (folder ++ "/" ++ f) = true
    · rw [if_pos hf]; exact ih ms fs p hprest
    · rw [if_neg hf]
      by_cases haf : af = true
      · rw [if_pos haf, ih _ _ p hprest]
        exact pathExists_setFile_frame fs p _ _ hpf
      · rw [if_neg haf]
        exact ih _ fs p hprest

theorem pathExists_checkFolder_frame (af : Bool) (e : String × List String)
    (ms : List String) (fs : FS) (p : String)
    (hanc : p ∉ ancestors e.1) (hfiles : ∀ g ∈ e.2, p ≠ e.1 ++ "/" ++ g) :
    pathExists ((checkFolder af (ms, fs) e).2) p = pathExists fs p := by
  rw [checkFolder_eq]
  by_cases he : pathExists fs e.1 = true
  · rw [if_pos he]; exact pathExists_checkFiles_frame af e.1 e.2 ms fs p hfiles
  · rw [if_neg he]
    by_cases haf : af = true
    · simp only
      rw [if_pos haf]
      exact pathExists_makedirs_frame fs p e.1 hanc
    · simp only
      rw [if_neg haf]

theorem checkFiles_false_fs (folder : String) :
    ∀ (files ms : List String) (fs : FS),
      (checkFiles false folder files (ms, fs)).2 = fs := by
  intro files
  induction files with
  | nil => intro ms fs; rfl
  | cons f rest ih =>
    intro ms fs
    rw [checkFiles_cons]
    by_cases hf : pathExists fs (folder ++ "/" ++ f) = true
    · rw [if_pos hf]; exact ih ms fs
    · rw [if_neg hf, if_neg (by simp : ¬(false = true))]
      exact ih _ fs

theorem checkFolder_false_fs (e : String × List String) (ms : List String)
    (fs : FS) : (checkFolder false (ms, fs) e).2 = fs := by
  rw [checkFolder_eq]
  by_cases he : pathExists fs e.1 = true
  · rw [if_pos he]; exact checkFiles_false_fs e.1 e.2 ms fs
  · rw [if_neg he]
    simp

theorem check_branch_false_fs :
    ∀ (man : List (String × List String)) (fs : FS),
      (check_branch man false fs).2 = fs := by
  intro man
  induction man with
  | nil => intro fs; rfl
  | cons e rest ih =>
    intro fs
    rw [check_branch_cons, checkFolder_false_fs]
    exact ih fs

theorem pathExists_of_file_mem (fs : FS) (p c : String)
    (h : (p, c) ∈ fs.files) : pathExists fs p = true := by
  rw [pathExists_iff]
  exact Or.inr (List.mem_map.mpr ⟨(p, c), h, rfl⟩)

theorem setFile_file_mem (fs : FS) (p c q c' : String) (hpq : p ≠ q)
    (h : (p, c) ∈ fs.files) : (p, c) ∈ (setFile fs q c').files := by
  simp only [setFile, List.mem_append]
  exact Or.inl (List.mem_filter.mpr ⟨h, by simp [hpq]⟩)

theorem checkFiles_file_mem (af : Bool) (folder : String) :
    ∀ (files ms : List String) (fs : FS) (p c : String),
      (p, c) ∈ fs.files →
      (p, c) ∈ ((checkFiles af folder files (ms, fs)).2).files := by
  intro files
  induction files with
  | nil => intro ms fs p c h; exact h
  | cons f rest ih =>
    intro ms fs p c h
    rw [checkFiles_cons]
    by_cases hf : pathExists fs (folder ++ "/" ++ f) = true
    · rw [if_pos hf]; exact ih ms fs p c h
    · rw [if_neg hf]
      by_cases haf : af = true
      · rw [if_pos haf]
        have hpq : p ≠ folder ++ "/" ++ f := by
          intro hpeq
          rw [hpeq] at h
          exact hf (pathExists_of_file_mem fs _ c h)
        exact ih _ _ p c (setFile_file_mem fs p c _ _ hpq h)
      · rw [if_neg haf]
        exact ih _ fs p c h

theorem checkFolder_file_mem (af : Bool) (e : String × List String)
    (ms : List String) (fs : FS) (p c : String) (h : (p, c) ∈ fs.files) :
    (p, c) ∈ ((checkFolder af (ms, fs) e).2).files := by
  rw [checkFolder_eq]
  by_cases he : pathExists fs e.1 = true
  · rw [if_pos he]; exact checkFiles_file_mem af e.1 e.2 ms fs p c h
  · rw [if_neg he]
    by_cases haf : af = true
    · simp only
      rw [if_pos haf]
      exact h
    · simp only
      rw [if_neg haf]
      exact h

theorem check_branch_file_mem (af : Bool) :
    ∀ (man : List (String × List String)) (fs : FS) (p c : String),
      (p, c) ∈ fs.files →
      (p, c) ∈ ((check_branch man af fs).2).files := by
  intro man
  induction man with
  | nil => intro fs p c h; exact h
  | cons e rest ih =>
    intro fs p c h
    rw [check_branch_cons]
    exact ih _ p c (checkFolder_file_mem af e [] fs p c h)

theorem splitChar_ne_nil (sep : Char) : ∀ l : List Char, splitChar sep l ≠ [] := by
  intro l
  cases l with
  | nil => simp [splitChar]
  | cons c rest =>
    by_cases h : c = sep
    · simp [splitChar, h]
    · simp only [splitChar, if_neg h]
      rcases hs : splitChar sep rest with _ | ⟨g, gs⟩
      · simp
      · simp

theorem joinChar_splitChar (sep : Char) : ∀ l : List Char,
    joinChar sep (splitChar sep l) = l := by
  intro l
  induction l with
  | nil => rfl
  | cons c rest ih =>
    by_cases h : c = sep
    · rw [splitChar, if_pos h]
      rcases hs : splitChar sep rest with _ | ⟨g, gs⟩
      · exact absurd hs (splitChar_ne_nil sep rest)
      · rw [hs] at ih
        rw [joinChar, ih]
        simp [h]
    · rw [splitChar, if_neg h]
      rcases hs : splitChar sep rest with _ | ⟨g, gs⟩
      · exact absurd hs (splitChar_ne_nil sep rest)
      · rw [hs] at ih
        show joinChar sep ((c :: g) :: gs) = c :: rest
        cases gs with
        | nil =>
          rw [joinChar]
          rw [joinChar] at ih
          rw [ih]
        | cons g2 gs2 =>
          rw [joinChar] at ih
          rw [joinChar, List.cons_append, ih]

theorem self_mem_ancestors (p : String) : p ∈ ancestors p := by
  have hne : (splitChar '/' p.data).length ≠ 0 := by
    intro h
    exact splitChar_ne_nil '/' p.data (List.length_eq_zero.mp h)
  refine List.mem_map.mpr ⟨(splitChar '/' p.data).length - 1, ?_, ?_⟩
  · exact List.mem_range.mpr (Nat.sub_lt (Nat.pos_of_ne_zero hne) Nat.one_pos)
  · rw [Nat.sub_add_cancel (Nat.pos_of_ne_zero hne), List.take_length,
      joinChar_splitChar]

theorem pathExists_makedirs_self (fs : FS) (p : String) :
    pathExists (makedirs fs p) p = true := by
  rw [pathExists_iff, makedirs_dirs]
  exact Or.inl (List.mem_append_right _ (self_mem_ancestors p))

theorem checkFiles_covered (af : Bool) (folder : String) :
    ∀ (files ms : List String) (fs : FS),
      (∀ f ∈ files, pathExists fs (folder ++ "/" ++ f) = true) →
      checkFiles af folder files (ms, fs) = (ms, fs) := by
  intro files
  induction files with
  | nil => intro ms fs _; rfl
  | cons f rest ih =>
    intro ms fs h
    rw [checkFiles_cons, if_pos (h f (List.mem_cons_self f rest))]
    exact ih ms fs (fun g hg => h g (List.mem_cons_of_mem f hg))

theorem check_branch_covered (af : Bool) :
    ∀ (man : List (String × List String)) (fs : FS),
      coveredBy man fs → check_branch man af fs = ([], fs) := by
  intro man
  induction man with
  | nil => intro fs _; rfl
  | cons e rest ih =>
    intro fs h
    have he := h e (List.mem_cons_self e rest)
    have hfold : checkFolder af ([], fs) e = ([], fs) := by
      rw [checkFolder_eq, if_pos he.1]
      exact checkFiles_covered af e.1 e.2 [] fs he.2
    rw [check_branch_cons, hfold]
    have hrest : check_branch rest af fs = ([], fs) :=
      ih fs (fun e' he' => h e' (List.mem_cons_of_mem e he'))
    rw [hrest]
    simp

theorem coveredBy_fsOfManifest (man : List (String × List String)) :
    coveredBy man (fsOfManifest man) := by
  intro e he
  constructor
  · rw [pathExists_iff]
    exact Or.inl (List.mem_map.mpr ⟨e, he, rfl⟩)
  · intro f hf
    rw [pathExists_iff]
    refine Or.inr (List.mem_map.mpr ⟨(e.1 ++ "/" ++ f, ""), ?_, rfl⟩)
    simp only [fsOfManifest, List.mem_flatMap]
    exact ⟨e, he, List.mem_map.mpr ⟨f, hf, rfl⟩⟩

theorem missing_folder_main (af : Bool) (folder : String) (files : List String) :
    ∀ (man : List (String × List String)) (fs : FS),
      (man.map Prod.fst).Nodup →
      (folder, files) ∈ man →
      pathExists fs folder = false →
      (∀ e ∈ man, e.1 ≠ folder →
        folder ∉ ancestors e.1 ∧ ∀ g ∈ e.2, folder ≠ e.1 ++ "/" ++ g) →
      (∀ e ∈ man, ∀ f ∈ files,
        "Missing folder: " ++ e.1 ≠ "Missing file: " ++ (folder ++ "/" ++ f) ∧
        (e.1 ≠ folder → ∀ g ∈ e.2,
          "Missing file: " ++ (e.1 ++ "/" ++ g)
            ≠ "Missing file: " ++ (folder ++ "/" ++ f))) →
      ("Missing folder: " ++ folder) ∈ (check_branch man af fs).1 ∧
      ∀ f ∈ files,
        ("Missing file: " ++ (folder ++ "/" ++ f)) ∉ (check_branch man af fs).1 := by
  intro man
  induction man with
  | nil => intro fs _ hmem; simp at hmem
  | cons e rest ih =>
    intro fs hnodup hmem habsent hnocreate hdist
    have hnodup' : (rest.map Prod.fst).Nodup := by
      simp only [List.map_cons, List.nodup_cons] at hnodup
      exact hnodup.2
    have hkeyrest : e.1 ∉ rest.map Prod.fst := by
      simp only [List.map_cons, List.nodup_cons] at hnodup
      exact hnodup.1
    rw [check_branch_cons]
    by_cases hkey : e.1 = folder
    · have he : e = (folder, files) := by
        rcases List.mem_cons.mp hmem with h | h
        · exact h.symm
        · exact absurd (List.mem_map.mpr ⟨(folder, files), h, hkey.symm⟩) hkeyrest
      have hseg : checkFolder af ([], fs) e
          = ([ "Missing folder: " ++ e.1 ],
             if af then makedirs fs e.1 else fs) := by
        rw [checkFolder_eq, if_neg (by rw [hkey, habsent]; simp)]
        simp
      constructor
      · rw [hseg]
        refine List.mem_append.mpr (Or.inl ?_)
        simp [hkey]
      · intro f hf hx
        rw [hseg] at hx
        rcases List.mem_append.mp hx with h1 | h1
        · have h2 : "Missing file: " ++ (folder ++ "/" ++ f)
              = "Missing folder: " ++ e.1 := List.mem_singleton.mp h1
          exact (hdist e (List.mem_cons_self e rest) f hf).1 h2.symm
        · rcases check_branch_shape af rest _ _ h1 with ⟨e', he', hx'⟩
          have hkey' : e'.1 ≠ folder := by
            intro hc
            rw [← hkey] at hc
            exact hkeyrest (List.mem_map.mpr ⟨e', he', hc⟩)
          rcases hx' with hx' | ⟨g, hg, hx'⟩
          · exact (hdist e' (List.mem_cons_of_mem e he') f hf).1 hx'.symm
          · exact (hdist e' (List.mem_cons_of_mem e he') f hf).2 hkey' g hg hx'.symm
    · have hmem' : (folder, files) ∈ rest := by
        rcases List.mem_cons.mp hmem with h | h
        · exact absurd (congrArg Prod.fst h.symm) hkey
        · exact h
      have hnc := hnocreate e (List.mem_cons_self e rest) hkey
      have hfs' : pathExists ((checkFolder af ([], fs) e).2) folder = false := by
        rw [pathExists_checkFolder_frame af e [] fs folder hnc.1
          (fun g hg => hnc.2 g hg)]
        exact habsent
      have ihh := ih ((checkFolder af ([], fs) e).2) hnodup' hmem' hfs'
        (fun e' he' => hnocreate e' (List.mem_cons_of_mem e he'))
        (fun e' he' => hdist e' (List.mem_cons_of_mem e he'))
      constructor
      · exact List.mem_append.mpr (Or.inr ihh.1)
      · intro f hf hx
        rcases List.mem_append.mp hx with h1 | h1
        · rcases checkFolder_shape af e [] fs _ h1 with h2 | h2 | ⟨g, hg, h2⟩
          · simp at h2
          · exact (hdist e (List.mem_cons_self e rest) f hf).1 h2.symm
          · exact (hdist e (List.mem_cons_self e rest) f hf).2 hkey g hg h2.symm
        · exact ihh.2 f hf h1

theorem string_append_left_cancel {s t u : String} (h : s ++ t = s ++ u) :
    t = u := by
  have hd := congrArg String.data h
  rw [String.data_append, String.data_append] at hd
  exact String.ext (List.append_cancel_left hd)

theorem checkFolder_dirs_mono (af : Bool) (e : String × List String)
    (ms : List String) (fs : FS) (p : String) (h : p ∈ fs.dirs) :
    p ∈ ((checkFolder af (ms, fs) e).2).dirs := by
  rw [checkFolder_eq]
  by_cases he : pathExists fs e.1 = true
  · rw [if_pos he, checkFiles_fs_dirs]
    exact h
  · rw [if_neg he]
    by_cases haf : af = true
    · simp only
      rw [if_pos haf, makedirs_dirs]
      exact List.mem_append_left _ h
    · simp only
      rw [if_neg haf]
      exact h

theorem check_branch_dirs_mono (af : Bool) :
    ∀ (man : List (String × List String)) (fs : FS) (p : String),
      p ∈ fs.dirs → p ∈ ((check_branch man af fs).2).dirs := by
  intro man
  induction man with
  | nil => intro fs p h; exact h
  | cons e rest ih =>
    intro fs p h
    rw [check_branch_cons]
    exact ih _ p (checkFolder_dirs_mono af e [] fs p h)

theorem folder_created_main (folder : String) (files : List String) :
    ∀ (man : List (String × List String)) (fs : FS),
      (folder, files) ∈ man →
      pathExists fs folder = false →
      (∀ e ∈ man, e.1 ≠ folder →
        folder ∉ ancestors e.1 ∧ ∀ g ∈ e.2, folder ≠ e.1 ++ "/" ++ g) →
      folder ∈ ((check_branch man true fs).2).dirs := by
  intro man
  induction man with
  | nil => intro fs hmem; simp at hmem
  | cons e rest ih =>
    intro fs hmem habsent hnocreate
    rw [check_branch_cons]
    by_cases hkey : e.1 = folder
    · have hseg : (checkFolder true ([], fs) e).2 = makedirs fs e.1 := by
        rw [checkFolder_eq, if_neg (by rw [hkey, habsent]; simp)]
        simp
      rw [hseg]
      refine check_branch_dirs_mono true rest _ folder ?_
      rw [makedirs_dirs]
      exact List.mem_append_right _ (hkey ▸ self_mem_ancestors e.1)
    · have hmem' : (folder, files) ∈ rest := by
        rcases List.mem_cons.mp hmem with h | h
        · exact absurd (congrArg Prod.fst h.symm) hkey
        · exact h
      have hnc := hnocreate e (List.mem_cons_self e rest) hkey
      have hfs' : pathExists ((checkFolder true ([], fs) e).2) folder = false := by
        rw [pathExists_checkFolder_frame true e [] fs folder hnc.1
          (fun g hg => hnc.2 g hg)]
        exact habsent
      exact ih _ hmem' hfs'
        (fun e' he' => hnocreate e' (List.mem_cons_of_mem e he'))

theorem checkFiles_creates (folder : String) :
    ∀ (files ms : List String) (fs : FS) (f : String),
      f ∈ files →
      pathExists fs (folder ++ "/" ++ f) = false →
      ("Missing file: " ++ (folder ++ "/" ++ f))
        ∈ (checkFiles true folder files (ms, fs)).1 ∧
      (folder ++ "/" ++ f, placeholder f)
        ∈ ((checkFiles true folder files (ms, fs)).2).files := by
  intro files
  induction files with
  | nil => intro ms fs f hf; simp at hf
  | cons g rest ih =>
    intro ms fs f hf habsent
    rw [checkFiles_cons]
    by_cases hg : pathExists fs (folder ++ "/" ++ g) = true
    · rw [if_pos hg]
      have hgf : f ≠ g := by
        intro h
        rw [h] at habsent
        rw [habsent] at hg
        cases hg
      have hf' : f ∈ rest := by
        rcases List.mem_cons.mp hf with h | h
        · exact absurd h hgf
        · exact h
      exact ih ms fs f hf' habsent
    · rw [if_neg hg, if_pos rfl]
      by_cases hgf : g = f
      · subst hgf
        constructor
        · exact mem_checkFiles_of_mem true folder rest _ _ _
            (List.mem_append_right ms (List.mem_singleton.mpr rfl))
        · refine checkFiles_file_mem true folder rest _ _ _ _ ?_
          simp [setFile]
      · have hpath : folder ++ "/" ++ g ≠ folder ++ "/" ++ f := by
          intro h
          exact hgf (string_append_left_cancel h)
        have hf' : f ∈ rest := by
          rcases List.mem_cons.mp hf with h | h
          · exact absurd h.symm hgf
          · exact h
        have habsent' :
            pathExists (setFile fs (folder ++ "/" ++ g) (placeholder g))
              (folder ++ "/" ++ f) = false := by
          rw [pathExists_setFile_frame fs _ _ _ (Ne.symm hpath)]
          exact habsent
        exact ih _ _ f hf' habsent'

theorem file_created_main (folder : String) (files : List String) (f : String) :
    ∀ (man : List (String × List String)) (fs : FS),
      (man.map Prod.fst).Nodup →
      (folder, files) ∈ man →
      f ∈ files →
      pathExists fs folder = true →
      pathExists fs (folder ++ "/" ++ f) = false →
      (∀ e ∈ man, e.1 ≠ folder →
        (folder ++ "/" ++ f) ∉ ancestors e.1 ∧
        ∀ g ∈ e.2, folder ++ "/" ++ f ≠ e.1 ++ "/" ++ g) →
      ("Missing file: " ++ (folder ++ "/" ++ f)) ∈ (check_branch man true fs).1 ∧
      (folder ++ "/" ++ f, placeholder f)
        ∈ ((check_branch man true fs).2).files := by
  intro man
  induction man with
  | nil => intro fs _ hmem; simp at hmem
  | cons e rest ih =>
    intro fs hnodup hmem hf hfolder habsent hnocreate
    have hnodup' : (rest.map Prod.fst).Nodup := by
      simp only [List.map_cons, List.nodup_cons] at hnodup
      exact hnodup.2
    have hkeyrest : e.1 ∉ rest.map Prod.fst := by
      simp only [List.map_cons, List.nodup_cons] at hnodup
      exact hnodup.1
    rw [check_branch_cons]
    by_cases hkey : e.1 = folder
    · have he : e = (folder, files) := by
        rcases List.mem_cons.mp hmem with h | h
        · exact h.symm
        · exact absurd (List.mem_map.mpr ⟨(folder, files), h, hkey.symm⟩) hkeyrest
      have hseg : checkFolder true ([], fs) e
          = checkFiles true folder files ([], fs) := by
        rw [checkFolder_eq, if_pos (by rw [hkey]; exact hfolder), he]
      rw [hseg]
      have hcre := checkFiles_creates folder files [] fs f hf habsent
      constructor
      · exact List.mem_append.mpr (Or.inl hcre.1)
      · exact check_branch_file_mem true rest _ _ _ hcre.2
    · have hmem' : (folder, files) ∈ rest := by
        rcases List.mem_cons.mp hmem with h | h
        · exact absurd (congrArg Prod.fst h.symm) hkey
        · exact h
      have hnc := hnocreate e (List.mem_cons_self e rest) hkey
      have habsent' : pathExists ((checkFolder true ([], fs) e).2)
          (folder ++ "/" ++ f) = false := by
        rw [pathExists_checkFolder_frame true e [] fs _ hnc.1
          (fun g hg => hnc.2 g hg)]
        exact habsent
      have hfolder' : pathExists ((checkFolder true ([], fs) e).2) folder = true :=
        pathExists_checkFolder_mono true e [] fs folder hfolder
      have ihh := ih _ hnodup' hmem' hf hfolder' habsent'
        (fun e' he' => hnocreate e' (List.mem_cons_of_mem e he'))
      exact ⟨List.mem_append.mpr (Or.inr ihh.1), ihh.2⟩

theorem nofix_missing_folder (folder : String) (files : List String) :
    ∀ (man : List (String × List String)) (fs : FS),
      (folder, files) ∈ man →
      pathExists fs folder = false →
      ("Missing folder: " ++ folder) ∈ (check_branch man false fs).1 := by
  intro man
  induction man with
  | nil => intro fs hmem; simp at hmem
  | cons e rest ih =>
    intro fs hmem habsent
    rw [check_branch_cons, checkFolder_false_fs]
    rcases List.mem_cons.mp hmem with h | h
    · refine List.mem_append.mpr (Or.inl ?_)
      rw [checkFolder_eq, if_neg (by rw [← h]; simp [habsent])]
      rw [← h]
      simp
    · exact List.mem_append.mpr (Or.inr (ih fs h habsent))

theorem checkFiles_reports_nofix (folder : String) :
    ∀ (files ms : List String) (fs : FS) (f : String),
      f ∈ files →
      pathExists fs (folder ++ "/" ++ f) = false →
      ("Missing file: " ++ (folder ++ "/" ++ f))
        ∈ (checkFiles false folder files (ms, fs)).1 := by
  intro files
  induction files with
  | nil => intro ms fs f hf; simp at hf
  | cons g rest ih =>
    intro ms fs f hf habsent
    rw [checkFiles_cons]
    by_cases hg : pathExists fs (folder ++ "/" ++ g) = true
    · rw [if_pos hg]
      have hgf : f ≠ g := by
        intro h
        rw [h] at habsent
        rw [habsent] at hg
        cases hg
      have hf' : f ∈ rest := by
        rcases List.mem_cons.mp hf with h | h
        · exact absurd h hgf
        · exact h
      exact ih ms fs f hf' habsent
    · rw [if_neg hg, if_neg (by simp : ¬(false = true))]
      by_cases hgf : g = f
      · subst hgf
        exact mem_checkFiles_of_mem false folder rest _ _ _
          (List.mem_append_right ms (List.mem_singleton.mpr rfl))
      · have hf' : f ∈ rest := by
          rcases List.mem_cons.mp hf with h | h
          · exact absurd h.symm hgf
          · exact h
        exact ih _ fs f hf' habsent

theorem nofix_missing_file (folder : String) (files : List String) (f : String) :
    ∀ (man : List (String × List String)) (fs : FS),
      (folder, files) ∈ man →
      pathExists fs folder = true →
      f ∈ files →
      pathExists fs (folder ++ "/" ++ f) = false →
      ("Missing file: " ++ (folder ++ "/" ++ f))
        ∈ (check_branch man false fs).1 := by
  intro man
  induction man with
  | nil => intro fs hmem; simp at hmem
  | cons e rest ih =>
    intro fs hmem hfolder hf habsent
    rw [check_branch_cons, checkFolder_false_fs]
    rcases List.mem_cons.mp hmem with h | h
    · refine List.mem_append.mpr (Or.inl ?_)
      rw [checkFolder_eq, if_pos (by rw [← h]; exact hfolder), ← h]
      exact checkFiles_reports_nofix folder files [] fs f hf habsent
    · exact List.mem_append.mpr (Or.inr (ih fs h hfolder hf habsent))

theorem pathExists_setFile_self (fs : FS) (q c : String) :
    pathExists (setFile fs q c) q = true := by
  rw [pathExists_iff]
  refine Or.inr (List.mem_map.mpr ⟨(q, c), ?_, rfl⟩)
  simp [setFile]

theorem checkFiles_all_exist (folder : String) :
    ∀ (files ms : List String) (fs : FS) (f : String),
      f ∈ files →
      pathExists ((checkFiles true folder files (ms, fs)).2)
        (folder ++ "/" ++ f) = true := by
  intro files
  induction files with
  | nil => intro ms fs f hf; simp at hf
  | cons g rest ih =>
    intro ms fs f hf
    rw [checkFiles_cons]
    by_cases hg : pathExists fs (folder ++ "/" ++ g) = true
    · rw [if_pos hg]
      rcases List.mem_cons.mp hf with h | h
      · subst h
        exact pathExists_checkFiles_mono true folder rest ms fs _ hg
      · exact ih ms fs f h
    · rw [if_neg hg, if_pos rfl]
      rcases List.mem_cons.mp hf with h | h
      · subst h
        exact pathExists_checkFiles_mono true folder rest _ _ _
          (pathExists_setFile_self fs _ _)
      · exact ih _ _ f h

theorem checkFolder_key_exists (e : String × List String) (ms : List String)
    (fs : FS) : pathExists ((checkFolder true (ms, fs) e).2) e.1 = true := by
  rw [checkFolder_eq]
  by_cases he : pathExists fs e.1 = true
  · rw [if_pos he]
    exact pathExists_checkFiles_mono true e.1 e.2 ms fs e.1 he
  · rw [if_neg he]
    simp only [if_pos rfl]
    exact pathExists_makedirs_self fs e.1

theorem check_branch_folders_exist :
    ∀ (man : List (String × List String)) (fs : FS)
      (e : String × List String), e ∈ man →
      pathExists ((check_branch man true fs).2) e.1 = true := by
  intro man
  induction man with
  | nil => intro fs e he; simp at he
  | cons hd rest ih =>
    intro fs e he
    rw [check_branch_cons]
    rcases List.mem_cons.mp he with h | h
    · subst h
      exact pathExists_check_branch_mono true rest _ e.1
        (checkFolder_key_exists e [] fs)
    · exact ih _ e h

theorem check_branch_covered_after :
    ∀ (man : List (String × List String)) (fs : FS),
      (∀ e ∈ man, pathExists fs e.1 = true) →
      coveredBy man ((check_branch man true fs).2) := by
  intro man
  induction man with
  | nil => intro fs _ e he; simp at he
  | cons hd rest ih =>
    intro fs hkeys e he
    have hhd : pathExists fs hd.1 = true := hkeys hd (List.mem_cons_self hd rest)
    have hseg : checkFolder true ([], fs) hd = checkFiles true hd.1 hd.2 ([], fs) := by
      rw [checkFolder_eq, if_pos hhd]
    rcases List.mem_cons.mp he with h | h
    · subst h
      constructor
      · rw [check_branch_cons]
        exact pathExists_check_branch_mono true rest _ e.1
          (pathExists_checkFolder_mono true e [] fs e.1 hhd)
      · intro f hf
        rw [check_branch_cons, hseg]
        exact pathExists_check_branch_mono true rest _ _
          (checkFiles_all_exist e.1 e.2 [] fs f hf)
    · have hkeys' : ∀ e' ∈ rest, pathExists ((checkFolder true ([], fs) hd).2) e'.1 = true :=
        fun e' he' => pathExists_checkFolder_mono true hd [] fs e'.1
          (hkeys e' (List.mem_cons_of_mem hd he'))
      have := ih ((checkFolder true ([], fs) hd).2) hkeys' e h
      rw [check_branch_cons]
      exact this

theorem second_run_empty (man : List (String × List String)) (fs : FS)
    (h : ∀ e ∈ man, pathExists fs e.1 = true) :
    (check_branch man true ((check_branch man true fs).2)).1 = [] := by
  rw [check_branch_covered true man _ (check_branch_covered_after man fs h)]

theorem third_run_empty (man : List (String × List String)) (fs : FS) :
    (check_branch man true ((audit_twice man fs).2)).1 = [] := by
  show (check_branch man true ((check_branch man true _).2)).1 = []
  exact second_run_empty man ((check_branch man true fs).2)
    (fun e he => check_branch_folders_exist man fs e he)

theorem mem_of_mem_charStrip (c : Char) (l : List Char)
    (h : c ∈ charStrip l) : c ∈ l := by
  unfold charStrip at h
  rw [List.mem_reverse] at h
  have h2 := (List.dropWhile_sublist (l := (l.dropWhile Char.isWhitespace).reverse)
    (p := Char.isWhitespace)).mem h
  rw [List.mem_reverse] at h2
  exact (List.dropWhile_sublist (l := l) (p := Char.isWhitespace)).mem h2

theorem star_not_mem_removeStar (s : String) : '*' ∉ (removeStar s).data := by
  intro h
  unfold removeStar at h
  have := List.mem_filter.mp h
  simp at this

theorem branches_of_no_star (raw name : String)
    (h : name ∈ branches_of raw) : '*' ∉ name.data := by
  intro hstar
  unfold branches_of at h
  rcases List.mem_map.mp h with ⟨b, _, hb⟩
  rw [← hb] at hstar
  exact star_not_mem_removeStar b
    (mem_of_mem_charStrip '*' (removeStar b).data hstar)

theorem auditAll_printed_shape (w : World) (af : Bool) :
    ∀ (bs : List String) (s : ProgState) (printed : List OutEvent)
      (report : List (String × List String)),
      ∃ t, (auditAll w af s bs printed report).1 = printed ++ t ∧
        ∀ x ∈ t, ∃ b, x = OutEvent.checkingBanner b := by
  intro bs
  induction bs with
  | nil =>
    intro s printed report
    exact ⟨[], by simp [auditAll], by simp⟩
  | cons b rest ih =>
    intro s printed report
    by_cases hb : b = ""
    · rw [auditAll, if_pos hb]
      exact ih s printed report
    · rw [auditAll, if_neg hb]
      rcases hchk : w.checkout b s.fs with e | fs1
      · exact ⟨[OutEvent.checkingBanner b], by simp, by simp⟩
      · simp only
        rcases ih ((check_branch_prog af { s with fs := fs1 }).2)
          (printed ++ [OutEvent.checkingBanner b])
          (reportSet report b (check_branch_prog af { s with fs := fs1 }).1)
          with ⟨t, ht, hbn⟩
        refine ⟨OutEvent.checkingBanner b :: t, ?_, ?_⟩
        · rw [ht]
          simp
        · intro x hx
          rcases List.mem_cons.mp hx with h1 | h1
          · exact ⟨b, h1⟩
          · exact hbn x h1

theorem auditAll_manifest (w : World) (af : Bool) :
    ∀ (bs : List String) (s : ProgState) (printed : List OutEvent)
      (report r : List (String × List String)) (s' : ProgState),
      (auditAll w af s bs printed report).2 = Except.ok (r, s') →
      s'.manifest = s.manifest := by
  intro bs
  induction bs with
  | nil =>
    intro s printed report r s' h
    simp only [auditAll, Except.ok.injEq, Prod.mk.injEq] at h
    rw [← h.2]
  | cons b rest ih =>
    intro s printed report r s' h
    by_cases hb : b = ""
    · rw [auditAll, if_pos hb] at h
      exact ih s printed report r s' h
    · rw [auditAll, if_neg hb] at h
      rcases hchk : w.checkout b s.fs with e | fs1
      · rw [hchk] at h
        simp at h
      · rw [hchk] at h
        simp only at h
        exact ih ((check_branch_prog af { s with fs := fs1 }).2)
          (printed ++ [OutEvent.checkingBanner b])
          (reportSet report b (check_branch_prog af { s with fs := fs1 }).1) r s' h

theorem mainRun_listing_error (w : World) (af : Bool) (s : ProgState)
    (e : VcsError) (h : w.branch_output = Except.error e) :
    mainRun w af s = ([], Except.error e) := by
  simp [mainRun, h]

theorem auditAll_checkout_error (w : World) (af : Bool) (s : ProgState)
    (b : String) (rest : List String) (printed : List OutEvent)
    (report : List (String × List String)) (e : VcsError)
    (hb : b ≠ "") (hc : w.checkout b s.fs = Except.error e) :
    auditAll w af s (b :: rest) printed report
      = (printed ++ [OutEvent.checkingBanner b], Except.error e) := by
  rw [auditAll, if_neg hb, hc]

theorem mainRun_error_no_report (w : World) (af : Bool) (s : ProgState)
    (e : VcsError) (h : (mainRun w af s).2 = Except.error e) :
    OutEvent.finalReportHeader ∉ (mainRun w af s).1 ∧
    ∀ r, OutEvent.reportJson r ∉ (mainRun w af s).1 := by
  rcases hbo : w.branch_output with e' | raw
  · rw [mainRun_listing_error w af s e' hbo]
    simp
  · rcases ha : auditAll w af s (branches_of raw) [] [] with ⟨printed, res⟩
    have hp : (auditAll w af s (branches_of raw) [] []).1 = printed := by
      rw [ha]
    rcases auditAll_printed_shape w af (branches_of raw) s [] [] with ⟨t, ht, hbn⟩
    rw [hp] at ht
    cases res with
    | error e2 =>
      have hm : mainRun w af s = (printed, Except.error e2) := by
        simp [mainRun, hbo, ha]
      rw [hm]
      constructor
      · intro hmem
        rw [ht] at hmem
        rcases hbn _ (by simpa using hmem) with ⟨b, hb⟩
        cases hb
      · intro r hmem
        rw [ht] at hmem
        rcases hbn _ (by simpa using hmem) with ⟨b, hb⟩
        cases hb
    | ok pr =>
      have hm : (mainRun w af s).2 = Except.ok pr.1 := by
        simp [mainRun, hbo, ha]
      rw [h] at hm
      cases hm

theorem RS_keys_nodup : (REQUIRED_STRUCTURE.map Prod.fst).Nodup := by decide

theorem RS_folder_nocreate : ∀ p ∈ REQUIRED_STRUCTURE, ∀ e ∈ REQUIRED_STRUCTURE,
    e.1 ≠ p.1 → p.1 ∉ ancestors e.1 ∧ ∀ g ∈ e.2, p.1 ≠ e.1 ++ "/" ++ g := by
  decide

theorem RS_entry_distinct : ∀ p ∈ REQUIRED_STRUCTURE, ∀ e ∈ REQUIRED_STRUCTURE,
    ∀ f ∈ p.2,
    ("Missing folder: " ++ e.1 ≠ "Missing file: " ++ (p.1 ++ "/" ++ f)) ∧
    (e.1 ≠ p.1 → ∀ g ∈ e.2,
      "Missing file: " ++ (e.1 ++ "/" ++ g)
        ≠ "Missing file: " ++ (p.1 ++ "/" ++ f)) := by
  decide

theorem RS_file_nocreate : ∀ p ∈ REQUIRED_STRUCTURE, ∀ f ∈ p.2,
    ∀ e ∈ REQUIRED_STRUCTURE, e.1 ≠ p.1 →
    (p.1 ++ "/" ++ f) ∉ ancestors e.1 ∧
    ∀ g ∈ e.2, p.1 ++ "/" ++ f ≠ e.1 ++ "/" ++ g := by
  decide

/-- C1, counterexample: on a branch whose working tree is empty, the first
auto-fix run creates the seven manifest folders but skips their file checks
(the `continue` after a missing folder), so the second auto-fix run still
reports missing files: its missing-item list is not empty, refuting the
claimed two-run idempotence. -/
theorem C1_second_run_not_empty :
    (audit_twice REQUIRED_STRUCTURE { dirs := [], files := [] }).1 ≠ [] := by
  decide

/-- C1, amended: with auto-fix enabled, the second run on the same branch
yields an empty missing-item list provided no manifest folder was absent at
the start of the first run; in general stabilization takes one more pass:
the third run's missing-item list is always empty. -/
theorem C1_autofix_stabilizes (fs : FS) :
    ((∀ e ∈ REQUIRED_STRUCTURE, pathExists fs e.1 = true) →
      (audit_twice REQUIRED_STRUCTURE fs).1 = []) ∧
    (check_branch REQUIRED_STRUCTURE true
        (audit_twice REQUIRED_STRUCTURE fs).2).1 = [] :=
  ⟨fun h => second_run_empty REQUIRED_STRUCTURE fs h,
   third_run_empty REQUIRED_STRUCTURE fs⟩

/-- C1, witness: a tree that already has all seven manifest folders (but none
of the required files) is audited clean by the second auto-fix run. -/
theorem C1_autofix_stabilizes_witness :
    (audit_twice REQUIRED_STRUCTURE
      { dirs := ["orchestration", "resources/models", "resources/services",
                 "lifecycle", "api", "config", "tests"], files := [] }).1 = [] :=
  (C1_autofix_stabilizes _).1 (by decide)

/-- C2: for any working tree and either auto_fix setting, a manifest folder
that does not exist when the audit starts yields the entry
`Missing folder: <folder>` in the returned missing list, and no
`Missing file: <folder>/<f>` entry appears for any of that folder's required
files in that same pass (the loop `continue`s past the folder's file list). -/
theorem C2_missing_folder_skips_files (af : Bool) (fs : FS) (folder : String)
    (files : List String) (hmem : (folder, files) ∈ REQUIRED_STRUCTURE)
    (habsent : pathExists fs folder = false) :
    ("Missing folder: " ++ folder) ∈ (check_branch REQUIRED_STRUCTURE af fs).1 ∧
    ∀ f ∈ files, ("Missing file: " ++ (folder ++ "/" ++ f))
      ∉ (check_branch REQUIRED_STRUCTURE af fs).1 :=
  missing_folder_main af folder files REQUIRED_STRUCTURE fs RS_keys_nodup hmem
    habsent
    (fun e he hne => RS_folder_nocreate (folder, files) hmem e he hne)
    (fun e he f hf => RS_entry_distinct (folder, files) hmem e he f hf)

/-- C2, witness: on an empty tree the missing `config` folder is reported and
`config/settings.py` is not reported in the same pass. -/
theorem C2_missing_folder_skips_files_witness :
    ("Missing folder: " ++ "config")
      ∈ (check_branch REQUIRED_STRUCTURE false { dirs := [], files := [] }).1 ∧
    ∀ f ∈ ["settings.py"], ("Missing file: " ++ ("config" ++ "/" ++ f))
      ∉ (check_branch REQUIRED_STRUCTURE false { dirs := [], files := [] }).1 :=
  C2_missing_folder_skips_files false { dirs := [], files := [] } "config"
    ["settings.py"] (by decide) (by decide)

/-- C3: for every manifest (hence for every branch), auditing a working tree
that contains exactly the manifest's folders and files returns an empty
missing-item list, with either auto_fix setting. -/
theorem C3_conformant_tree_audits_clean
    (man : List (String × List String)) (af : Bool) :
    (check_branch man af (fsOfManifest man)).1 = [] := by
  rw [check_branch_covered af man _ (coveredBy_fsOfManifest man)]

/-- C4: with auto_fix disabled the audit performs no filesystem writes (the
resulting tree equals the input tree), while every absent manifest folder is
reported as `Missing folder: <folder>` and every missing required file of an
existing folder is reported as `Missing file: <folder>/<f>`. -/
theorem C4_no_fix_reports_without_writes (fs : FS) :
    (check_branch REQUIRED_STRUCTURE false fs).2 = fs ∧
    ∀ folder files, (folder, files) ∈ REQUIRED_STRUCTURE →
      (pathExists fs folder = false →
        ("Missing folder: " ++ folder)
          ∈ (check_branch REQUIRED_STRUCTURE false fs).1) ∧
      (pathExists fs folder = true →
        ∀ f ∈ files, pathExists fs (folder ++ "/" ++ f) = false →
          ("Missing file: " ++ (folder ++ "/" ++ f))
            ∈ (check_branch REQUIRED_STRUCTURE false fs).1) :=
  ⟨check_branch_false_fs REQUIRED_STRUCTURE fs,
   fun folder files hmem =>
     ⟨fun habsent => nofix_missing_folder folder files REQUIRED_STRUCTURE fs
        hmem habsent,
      fun hfolder f hf habsent => nofix_missing_file folder files f
        REQUIRED_STRUCTURE fs hmem hfolder hf habsent⟩⟩

/-- C4, witness: on a tree holding only the `config` folder, the report-only
audit leaves the tree unchanged, reports the missing `orchestration` folder,
and reports the missing `config/settings.py` file. -/
theorem C4_no_fix_reports_without_writes_witness :
    (check_branch REQUIRED_STRUCTURE false
        { dirs := ["config"], files := [] }).2
      = { dirs := ["config"], files := [] } ∧
    ("Missing folder: " ++ "orchestration")
      ∈ (check_branch REQUIRED_STRUCTURE false
          { dirs := ["config"], files := [] }).1 ∧
    ("Missing file: " ++ ("config" ++ "/" ++ "settings.py"))
      ∈ (check_branch REQUIRED_STRUCTURE false
          { dirs := ["config"], files := [] }).1 :=
  ⟨(C4_no_fix_reports_without_writes { dirs := ["config"], files := [] }).1,
   ((C4_no_fix_reports_without_writes { dirs := ["config"], files := [] }).2
      "orchestration"
      ["base_magician.py", "router.py", "job_magician.py",
       "business_magician.py", "developer_magician.py"]
      (by decide)).1 (by decide),
   ((C4_no_fix_reports_without_writes { dirs := ["config"], files := [] }).2
      "config" ["settings.py"] (by decide)).2 (by decide) "settings.py"
      (by decide) (by decide)⟩

/-- C5: with auto_fix enabled, an absent manifest folder is created (it is a
directory of the resulting tree) and still reported as
`Missing folder: <folder>`; a missing required file of an existing folder is
created holding the placeholder text `# Auto-generated placeholder for <f>`
(followed by a newline, as written by the source) and still reported as
`Missing file: <folder>/<f>`. -/
theorem C5_autofix_creates_and_reports (fs : FS) (folder : String)
    (files : List String) (hmem : (folder, files) ∈ REQUIRED_STRUCTURE) :
    (pathExists fs folder = false →
      folder ∈ ((check_branch REQUIRED_STRUCTURE true fs).2).dirs ∧
      ("Missing folder: " ++ folder)
        ∈ (check_branch REQUIRED_STRUCTURE true fs).1) ∧
    (pathExists fs folder = true →
      ∀ f ∈ files, pathExists fs (folder ++ "/" ++ f) = false →
        (folder ++ "/" ++ f, placeholder f)
          ∈ ((check_branch REQUIRED_STRUCTURE true fs).2).files ∧
        ("Missing file: " ++ (folder ++ "/" ++ f))
          ∈ (check_branch REQUIRED_STRUCTURE true fs).1) :=
  ⟨fun habsent =>
    ⟨folder_created_main folder files REQUIRED_STRUCTURE fs hmem habsent
       (fun e he hne => RS_folder_nocreate (folder, files) hmem e he hne),
     (missing_folder_main true folder files REQUIRED_STRUCTURE fs RS_keys_nodup
       hmem habsent
       (fun e he hne => RS_folder_nocreate (folder, files) hmem e he hne)
       (fun e he f hf => RS_entry_distinct (folder, files) hmem e he f hf)).1⟩,
   fun hfolder f hf habsent =>
     have h := file_created_main folder files f REQUIRED_STRUCTURE fs
       RS_keys_nodup hmem hf hfolder habsent
       (fun e he hne => RS_file_nocreate (folder, files) hmem f hf e he hne)
     ⟨h.2, h.1⟩⟩

/-- C5, witness: auto-fixing a tree holding only the `config` folder creates
and reports the `api` folder, and creates `config/settings.py` with the
placeholder content while reporting it. -/
theorem C5_autofix_creates_and_reports_witness :
    ("api" ∈ ((check_branch REQUIRED_STRUCTURE true
        { dirs := ["config"], files := [] }).2).dirs ∧
      ("Missing folder: " ++ "api")
        ∈ (check_branch REQUIRED_STRUCTURE true
            { dirs := ["config"], files := [] }).1) ∧
    (("config" ++ "/" ++ "settings.py", placeholder "settings.py")
        ∈ ((check_branch REQUIRED_STRUCTURE true
            { dirs := ["config"], files := [] }).2).files ∧
      ("Missing file: " ++ ("config" ++ "/" ++ "settings.py"))
        ∈ (check_branch REQUIRED_STRUCTURE true
            { dirs := ["config"], files := [] }).1) :=
  ⟨(C5_autofix_creates_and_reports { dirs := ["config"], files := [] } "api"
      ["routes_job.py", "routes_business.py", "routes_developer.py"]
      (by decide)).1 (by decide),
   (C5_autofix_creates_and_reports { dirs := ["config"], files := [] } "config"
      ["settings.py"] (by decide)).2 (by decide) "settings.py" (by decide)
      (by decide)⟩

/-- C6: on the raw listing `"* main\n  remotes/origin/main\n  feature-x\n"`
the enumerator returns exactly `["main", "feature-x"]`: the remote-tracking
line is dropped, the current-branch marker and surrounding whitespace are
stripped, and the branch names actually audited (empty strings skipped) are
the same two names. -/
theorem C6_enumerator_example :
    branches_of "* main\n  remotes/origin/main\n  feature-x\n"
      = ["main", "feature-x"] ∧
    audited_branches "* main\n  remotes/origin/main\n  feature-x\n"
      = ["main", "feature-x"] := by
  constructor
  · decide
  · decide

/-- C7: the manifest built from the variant list `["job"]` places
`job_magician.py` under `orchestration`, `vacuum_job_data.py` and
`retrain_job.py` under `lifecycle`, `routes_job.py` under `api`, and
`test_job_api.py` and `test_job_magician.py` under `tests`. Construction is
a total Lean function of the variant list, so it is deterministic and cannot
fail. -/
theorem C7_manifest_job_variant :
    "job_magician.py" ∈ manifestFiles (build_manifest ["job"]) "orchestration" ∧
    "vacuum_job_data.py" ∈ manifestFiles (build_manifest ["job"]) "lifecycle" ∧
    "retrain_job.py" ∈ manifestFiles (build_manifest ["job"]) "lifecycle" ∧
    "routes_job.py" ∈ manifestFiles (build_manifest ["job"]) "api" ∧
    "test_job_api.py" ∈ manifestFiles (build_manifest ["job"]) "tests" ∧
    "test_job_magician.py" ∈ manifestFiles (build_manifest ["job"]) "tests" := by
  decide

/-- C8: a failing version-control invocation aborts the whole run. If the
branch listing exits non-zero, `mainRun` prints nothing and returns the
error; if a checkout exits non-zero, the branch loop stops at that branch
with only the banners printed so far (the failing branch's own banner
included, since it is printed before the checkout) and no report entry for
the failing or any later branch; and whenever the run ends in an error, the
final-report header and the report dump are never printed. -/
theorem C8_vcs_failure_aborts :
    (∀ (w : World) (af : Bool) (s : ProgState) (e : VcsError),
      w.branch_output = Except.error e → mainRun w af s = ([], Except.error e)) ∧
    (∀ (w : World) (af : Bool) (s : ProgState) (b : String) (rest : List String)
      (printed : List OutEvent) (report : List (String × List String))
      (e : VcsError),
      b ≠ "" → w.checkout b s.fs = Except.error e →
      auditAll w af s (b :: rest) printed report
        = (printed ++ [OutEvent.checkingBanner b], Except.error e)) ∧
    (∀ (w : World) (af : Bool) (s : ProgState) (e : VcsError),
      (mainRun w af s).2 = Except.error e →
      OutEvent.finalReportHeader ∉ (mainRun w af s).1 ∧
      ∀ r, OutEvent.reportJson r ∉ (mainRun w af s).1) :=
  ⟨mainRun_listing_error,
   auditAll_checkout_error,
   mainRun_error_no_report⟩

/-- C8, witness: a concrete world whose branch listing fails yields exactly
the error with nothing printed, and a concrete world whose checkout of
`main` fails stops the loop with only the `main` banner printed. -/
theorem C8_vcs_failure_aborts_witness :
    mainRun
      { branch_output := Except.error { cmd := "git branch -a", exitCode := 128 },
        checkout := fun _ fs => Except.ok fs } false
      { fs := { dirs := [], files := [] }, manifest := REQUIRED_STRUCTURE }
      = ([], Except.error { cmd := "git branch -a", exitCode := 128 }) ∧
    auditAll
      { branch_output := Except.ok "main",
        checkout := fun b _ =>
          Except.error { cmd := "git checkout " ++ b, exitCode := 1 } } false
      { fs := { dirs := [], files := [] }, manifest := REQUIRED_STRUCTURE }
      ["main"] [] []
      = ([OutEvent.checkingBanner "main"],
         Except.error { cmd := "git checkout main", exitCode := 1 }) :=
  ⟨C8_vcs_failure_aborts.1 _ false _ _ rfl,
   C8_vcs_failure_aborts.2.1 _ false _ "main" [] [] [] _ (by decide) rfl⟩

/-- C9: the manifest's keys are pairwise distinct folder paths, and after
construction no operation mutates the manifest: `check_branch` (either
auto_fix setting) returns a program state with the same manifest, and the
whole branch loop, whenever it completes, leaves the manifest of the final
program state equal to the initial one. -/
theorem C9_manifest_keys_unique_and_immutable :
    (REQUIRED_STRUCTURE.map Prod.fst).Nodup ∧
    (∀ (af : Bool) (s : ProgState),
      ((check_branch_prog af s).2).manifest = s.manifest) ∧
    (∀ (w : World) (af : Bool) (s : ProgState) (bs : List String)
      (printed : List OutEvent) (report r : List (String × List String))
      (s' : ProgState),
      (auditAll w af s bs printed report).2 = Except.ok (r, s') →
      s'.manifest = s.manifest) :=
  ⟨RS_keys_nodup,
   fun _ _ => rfl,
   fun w af s bs printed report r s' h =>
     auditAll_manifest w af bs s printed report r s' h⟩

/-- C9, witness: a one-branch auto-fix run over a one-entry manifest ends in
a program state carrying the same manifest it started with. -/
theorem C9_manifest_keys_unique_and_immutable_witness :
    ProgState.manifest
      { fs := { dirs := ["a"], files := [] }, manifest := [("a", [])] }
      = ProgState.manifest
        { fs := { dirs := [], files := [] }, manifest := [("a", [])] } :=
  C9_manifest_keys_unique_and_immutable.2.2
    { branch_output := Except.ok "main", checkout := fun _ fs => Except.ok fs }
    true { fs := { dirs := [], files := [] }, manifest := [("a", [])] }
    ["main"] [] [] [("main", ["Missing folder: a"])]
    { fs := { dirs := ["a"], files := [] }, manifest := [("a", [])] }
    rfl

/-- C10: the enumerator's `replace("*", "")` deletes every `'*'` character of
a branch-listing line, not only a leading current-branch marker: no name it
returns (the names later used for checkout and as report keys) contains an
asterisk. -/
theorem C10_all_stars_removed (raw name : String)
    (h : name ∈ branches_of raw) : '*' ∉ name.data :=
  branches_of_no_star raw name h

/-- C10, witness: the line `* we*ird`, whose branch name itself carries an
asterisk, enumerates to `weird`, which contains no asterisk. -/
theorem C10_all_stars_removed_witness :
    "weird" ∈ branches_of "* we*ird" ∧ '*' ∉ ("weird" : String).data :=
  ⟨by decide, C10_all_stars_removed "* we*ird" "weird" (by decide)⟩
